import Mathlib

/-!
Verification of the attendance-ledger core of `src/main.py`.

The sheet's rows follow the fixed column order
`[Timestamp, Recorder, Member, EvidenceRef, Event]`: this is the order in
which `party` appends cells (`sheet.append_row([timestamp, author,
member.display_name, image_url, event_name])`) and the column names by which
`attendance_percent`, `attendance_stats` and `leaderboard` read rows back
(`row.get("Timestamp")`, `row.get("Member")`, `row.get("Event")`).

`sheet.get_all_records()` returns each row as a mapping from column name to
cell value; a lookup of a column that does not exist in the header raises
`KeyError`.  We model a row as a structure with the five schema fields and
model dictionary access by `Row.get`, which returns `none` for any other
column name.  A missing cell in the sheet surfaces as the empty string, which
is falsy in Python, so "row is missing field F" is modelled as "field F is
the empty string".
-/

namespace AttendanceBot

/-- One ledger row, with the sheet's five columns in order
`[Timestamp, Recorder, Member, EvidenceRef, Event]`. -/
structure Row where
  timestamp : String
  recorder : String
  member : String
  evidenceRef : String
  event : String
deriving DecidableEq

/-- Dictionary access on a row as returned by `sheet.get_all_records()`:
`Row.get r c` models Python `row[c]` / `row.get(c)`, returning `none`
exactly when the column name `c` is not in the sheet's header. -/
def Row.get (r : Row) (c : String) : Option String :=
  if c = "Timestamp" then some r.timestamp
  else if c = "Recorder" then some r.recorder
  else if c = "Member" then some r.member
  else if c = "EvidenceRef" then some r.evidenceRef
  else if c = "Event" then some r.event
  else none

/-- Per-attendee outcome of a check-in, as reported in the summary message of
`party` (a plain name line for a recorded member, a "Duplicate Member" line
for a duplicate). -/
inductive Outcome
  | recorded (member : String)
  | duplicate (member : String)
deriving DecidableEq

/-- The reply of one `party` invocation.  `sessionNotActive` models the
"Attendance is not active in this channel" early return, `noAttendees` the
"You must mention at least 1 member" early return, `keyError c` an uncaught
Python `KeyError` on column `c` while building the duplicate set, and
`ok outs` the normal summary listing one outcome per attendee. -/
inductive PartyReply
  | sessionNotActive
  | noAttendees
  | keyError (column : String)
  | ok (outcomes : List Outcome)
deriving DecidableEq

/-- One element step of the set comprehension
`row["Name"] + "|" + row["Party"] for row in existing_records
if row["Name"] == event_name`: Python evaluates `row["Name"]` for the filter
first, and the element expression only for rows passing the filter; a lookup
of a column absent from the header raises `KeyError` (modelled as `.error`
with the offending column name). -/
def dedupElem (eventName : String) (r : Row) : Except String (Option String) :=
  match r.get "Name" with
  | none => .error "Name"
  | some n =>
    if n = eventName then
      match r.get "Party" with
      | none => .error "Party"
      | some p => .ok (some (n ++ "|" ++ p))
    else .ok none

/-- The whole `already_recorded` set comprehension of `party` (lines
102-105 of `src/main.py`), evaluated eagerly over the ledger before the
per-attendee loop starts.  Membership is all that matters, so the set is
kept as a list of keys. -/
def buildAlreadyRecorded (eventName : String) : List Row → Except String (List String)
  | [] => .ok []
  | r :: rs =>
    match dedupElem eventName r with
    | .error c => .error c
    | .ok o =>
      match buildAlreadyRecorded eventName rs with
      | .error c => .error c
      | .ok ks =>
        match o with
        | some k => .ok (k :: ks)
        | none => .ok ks

/-- The per-attendee loop of `party` (lines 108-114): for each member in
input order, report a duplicate when `event_name|display_name` is in the
precomputed set, otherwise append one row
`[timestamp, author, member, image_url, event_name]`.  Returns the outcome
list and the appended rows, both in input order. -/
def partyLoop (already : List String) (eventName author ts url : String) :
    List String → List Outcome × List Row
  | [] => ([], [])
  | m :: ms =>
    let key := eventName ++ "|" ++ m
    let rest := partyLoop already eventName author ts url ms
    if key ∈ already then
      (Outcome.duplicate m :: rest.1, rest.2)
    else
      (Outcome.recorded m :: rest.1, Row.mk ts author m url eventName :: rest.2)

/-- The `/party` command body (lines 76-120 of `src/main.py`).
`active` models `active_attendance_channels` (a set of channel ids),
`chId`/`chName` the invoking channel's id and name (the channel name is the
event name), `author` the submitter's display name, `ts` the formatted
`utcnow` timestamp, `url` the attachment url, `attendees` the display names
of the mentioned members after dropping the `None` slots, and `ledger` the
rows returned by `sheet.get_all_records()`.  Returns the reply together with
the ledger as it stands after the call (unchanged unless rows were
appended). -/
def party (active : List Nat) (chId : Nat) (chName author ts url : String)
    (attendees : List String) (ledger : List Row) : PartyReply × List Row :=
  if chId ∉ active then (.sessionNotActive, ledger)
  else if attendees = [] then (.noAttendees, ledger)
  else
    match buildAlreadyRecorded chName ledger with
    | .error c => (.keyError c, ledger)
    | .ok already =>
      let res := partyLoop already chName author ts url attendees
      (.ok res.1, ledger ++ res.2)

/-! ### `/attendance_percent` -/

/-- Reply of `attendance_percent`: the "No events found in the sheet" message
when the ledger holds no events, otherwise the attended count, total count
and rate `attended / total * 100` (Python float division, modelled
exactly over `ℚ`). -/
inductive PercentOutput
  | noEventsRecorded
  | stats (attended total : ℕ) (percent : ℚ)
deriving DecidableEq

/-- The `if event and attendee` row-validity test of `attendance_percent`
(line 141): both the `Event` and the `Member` cell are truthy, i.e.
non-empty. -/
def percentRowOk (r : Row) : Bool := r.event != "" && r.member != ""

/-- One iteration of the row loop of `attendance_percent` (lines 137-144):
skip rows whose `Event` or `Member` cell is falsy, otherwise add the event to
`all_events` and, when the `Member` cell equals the queried display name,
also to `member_events`.  The state is `(all_events, member_events)`. -/
def percentStep (name : String) (st : Finset String × Finset String) (r : Row) :
    Finset String × Finset String :=
  if percentRowOk r then
    (insert r.event st.1, if r.member == name then insert r.event st.2 else st.2)
  else st

/-- The `/attendance_percent` command body (lines 125-161 of `src/main.py`),
minus the sheet read and message formatting. -/
def attendance_percent (ledger : List Row) (name : String) : PercentOutput :=
  let st := ledger.foldl (percentStep name) (∅, ∅)
  let total := st.1.card
  let attended := st.2.card
  if total = 0 then .noEventsRecorded
  else .stats attended total ((attended : ℚ) / (total : ℚ) * 100)

/-! ### `/attendance_stats` -/

/-- A Python `datetime.datetime` value (UTC, second precision), as produced
by `datetime.datetime.strptime(s, "%Y-%m-%d %H:%M:%S")` or
`datetime.datetime.utcnow()`. -/
structure PyDateTime where
  year : ℕ
  month : ℕ
  day : ℕ
  hour : ℕ
  minute : ℕ
  second : ℕ
deriving DecidableEq

/-- Gregorian leap-year rule, as in Python's `calendar`/`datetime`. -/
def isLeapYear (y : ℕ) : Bool :=
  (y % 4 == 0 && y % 100 != 0) || y % 400 == 0

/-- Number of days of month `m` in year `y` (Gregorian). -/
def daysInMonth (y m : ℕ) : ℕ :=
  if m = 2 then (if isLeapYear y then 29 else 28)
  else if m = 4 ∨ m = 6 ∨ m = 9 ∨ m = 11 then 30
  else 31

/-- Days in the proleptic Gregorian calendar strictly before January 1 of
year `y` (counting from year 1), as in `datetime.date.toordinal`. -/
def daysBeforeYear (y : ℕ) : ℕ :=
  (y - 1) * 365 + (y - 1) / 4 - (y - 1) / 100 + (y - 1) / 400

/-- Days of year `y` strictly before month `m`. -/
def daysBeforeMonth (y m : ℕ) : ℕ :=
  (List.range (m - 1)).foldl (fun a i => a + daysInMonth y (i + 1)) 0

/-- Seconds elapsed since the epoch `0001-01-01 00:00:00` of the proleptic
Gregorian calendar.  Python's `datetime` comparison and `timedelta`
subtraction agree with integer comparison and subtraction on this value. -/
def toSecs (t : PyDateTime) : ℤ :=
  ((daysBeforeYear t.year + daysBeforeMonth t.year t.month + (t.day - 1) : ℕ) : ℤ) * 86400
    + (t.hour : ℤ) * 3600 + (t.minute : ℤ) * 60 + (t.second : ℤ)

/-- Value of a decimal digit character. -/
def digitVal (c : Char) : ℕ := c.toNat - 48

/-- Model of `datetime.datetime.strptime(s, "%Y-%m-%d %H:%M:%S")` on
zero-padded timestamps (the shape the recorder itself writes via
`strftime('%Y-%m-%d %H:%M:%S')`): exactly `YYYY-MM-DD HH:MM:SS` with all
field ranges validated as by the `datetime` constructor; any other string
raises `ValueError`, modelled as `none`. -/
def strptime (s : String) : Option PyDateTime :=
  match s.toList with
  | [y1, y2, y3, y4, c1, m1, m2, c2, d1, d2, c3, h1, h2, c4, n1, n2, c5, s1, s2] =>
    if ([y1, y2, y3, y4, m1, m2, d1, d2, h1, h2, n1, n2, s1, s2].all Char.isDigit
        && c1 == '-' && c2 == '-' && c3 == ' ' && c4 == ':' && c5 == ':') then
      let y := ((digitVal y1 * 10 + digitVal y2) * 10 + digitVal y3) * 10 + digitVal y4
      let mo := digitVal m1 * 10 + digitVal m2
      let d := digitVal d1 * 10 + digitVal d2
      let h := digitVal h1 * 10 + digitVal h2
      let mi := digitVal n1 * 10 + digitVal n2
      let se := digitVal s1 * 10 + digitVal s2
      if (1 ≤ y ∧ 1 ≤ mo ∧ mo ≤ 12 ∧ 1 ≤ d ∧ d ≤ daysInMonth y mo
          ∧ h ≤ 23 ∧ mi ≤ 59 ∧ se ≤ 59) then
        some ⟨y, mo, d, h, mi, se⟩
      else none
    else none
  | _ => none

/-- The four sets accumulated by the row loop of `attendance_stats`:
`all_events`, `total_attended`, `last_15_days`, `current_month_events`. -/
structure StatsState where
  allEvents : Finset String
  totalAttended : Finset String
  last15 : Finset String
  currentMonth : Finset String
deriving DecidableEq

/-- The four counts reported by `attendance_stats`: Total Events, Attended,
Last 15 Days, This Month. -/
structure StatsResult where
  totalEvents : ℕ
  attended : ℕ
  last15Days : ℕ
  thisMonth : ℕ
deriving DecidableEq

/-- The `if not (event and attendee and timestamp_str)` row-validity test of
`attendance_stats` (line 190): the `Event`, `Member` and `Timestamp` cells
are all truthy, i.e. non-empty. -/
def statsRowOk (r : Row) : Bool :=
  r.event != "" && r.member != "" && r.timestamp != ""

/-- One iteration of the row loop of `attendance_stats` (lines 185-207):
skip rows with a falsy `Event`, `Member` or `Timestamp` cell; add the event
to `all_events`; for rows crediting the queried member, add the event to
`total_attended` and then try to parse the timestamp — on success add the
event to `last_15_days` when `timestamp >= now - timedelta(days=15)` and to
`current_month_events` when month and year match `now`; on a parse failure
only the two window sets are skipped (the `try` begins after
`total_attended.add`). -/
def statsStep (name : String) (now : PyDateTime) (st : StatsState) (r : Row) :
    StatsState :=
  if statsRowOk r then
    let ae := insert r.event st.allEvents
    if r.member == name then
      let ta := insert r.event st.totalAttended
      match strptime r.timestamp with
      | some t =>
        let l15 := if toSecs now - 15 * 86400 ≤ toSecs t then insert r.event st.last15
                   else st.last15
        let cm := if t.month == now.month && t.year == now.year then
                    insert r.event st.currentMonth
                  else st.currentMonth
        ⟨ae, ta, l15, cm⟩
      | none => ⟨ae, ta, st.last15, st.currentMonth⟩
    else ⟨ae, st.totalAttended, st.last15, st.currentMonth⟩
  else st

/-- The `/attendance_stats` command body (lines 166-222 of `src/main.py`),
with `now` (the code's `datetime.datetime.utcnow()`) taken as a parameter. -/
def attendance_stats (ledger : List Row) (name : String) (now : PyDateTime) :
    StatsResult :=
  let st := ledger.foldl (statsStep name now) ⟨∅, ∅, ∅, ∅⟩
  ⟨st.allEvents.card, st.totalAttended.card, st.last15.card, st.currentMonth.card⟩

/-! ### `/leaderboard` -/

/-- Reply of `leaderboard`: "No events found" when the ledger holds no
events, otherwise the ranked board, one `(rank, member, percent)` entry per
line. -/
inductive LeaderboardOutput
  | noEventsRecorded
  | board (entries : List (ℕ × String × ℚ))
deriving DecidableEq

/-- `member_attendance[member].add(event)`, with
`member_attendance[member] = set()` first when the key is absent.  The dict
is modelled as an association list in insertion order (Python 3.7+ dicts
preserve insertion order, and `.items()` iterates in it). -/
def updateMA (ma : List (String × Finset String)) (m e : String) :
    List (String × Finset String) :=
  match ma with
  | [] => [(m, {e})]
  | (k, s) :: rest =>
    if k = m then (k, insert e s) :: rest else (k, s) :: updateMA rest m e

/-- The `if not (member and event)` row-validity test of `leaderboard`
(line 242): both the `Member` and the `Event` cell are truthy. -/
def lbRowOk (r : Row) : Bool := r.member != "" && r.event != ""

/-- One iteration of the row loop of `leaderboard` (lines 238-248): skip
rows with a falsy `Member` or `Event` cell, otherwise add the event to
`event_set` and to the member's set in `member_attendance`. -/
def lbStep (st : Finset String × List (String × Finset String)) (r : Row) :
    Finset String × List (String × Finset String) :=
  if lbRowOk r then
    (insert r.event st.1, updateMA st.2 r.member r.event)
  else st

/-- Stable insertion into a list already sorted by descending percent: the
new element goes after every element whose percent is `≥` its own. -/
def insertByDesc (x : String × ℚ) : List (String × ℚ) → List (String × ℚ)
  | [] => [x]
  | y :: ys => if y.2 ≤ x.2 then x :: y :: ys else y :: insertByDesc x ys

/-- Model of Python's `sorted(leaderboard_data, key=lambda x: x[1],
reverse=True)`: a stable sort by descending percent (Python's sort is
stable; this insertion sort keeps ties in input order, so it computes the
same list). -/
def sortByPercentDesc : List (String × ℚ) → List (String × ℚ)
  | [] => []
  | x :: xs => insertByDesc x (sortByPercentDesc xs)

/-- `enumerate(sorted_board, start=i)`: prepend `i`-based rank numbers. -/
def addRanks (i : ℕ) : List (String × ℚ) → List (ℕ × String × ℚ)
  | [] => []
  | x :: xs => (i, x.1, x.2) :: addRanks (i + 1) xs

/-- The `/leaderboard` command body (lines 226-268 of `src/main.py`), minus
the sheet read and message formatting. -/
def leaderboard (ledger : List Row) : LeaderboardOutput :=
  let st := ledger.foldl lbStep (∅, [])
  let total := st.1.card
  if total = 0 then .noEventsRecorded
  else
    let data := st.2.map (fun p => (p.1, (p.2.card : ℚ) / (total : ℚ) * 100))
    .board (addRanks 1 (sortByPercentDesc data))

/-! ### Declarative characterizations used in the claim statements -/

/-- Distinct events over all rows carrying both an `Event` and a `Member`
cell: the `total` denominator of `attendance_percent`. -/
def allEventsSpec (ledger : List Row) : Finset String :=
  ((ledger.filter percentRowOk).map Row.event).toFinset

/-- Distinct events among well-formed rows crediting `name`: the `attended`
numerator of `attendance_percent`. -/
def memberEventsSpec (ledger : List Row) (name : String) : Finset String :=
  ((ledger.filter (fun r => percentRowOk r && r.member == name)).map Row.event).toFinset

/-- Distinct events over rows carrying `Event`, `Member` and `Timestamp`
cells: the `Total Events` figure of `attendance_stats`. -/
def statsAllSpec (ledger : List Row) : Finset String :=
  ((ledger.filter statsRowOk).map Row.event).toFinset

/-- Distinct events among stats-well-formed rows crediting `name`,
regardless of whether the timestamp parses. -/
def statsAttSpec (ledger : List Row) (name : String) : Finset String :=
  ((ledger.filter (fun r => statsRowOk r && r.member == name)).map Row.event).toFinset

/-- The timestamp parses and lies in the closed 15×24h window ending at
`now`; an unparseable timestamp is never in the window. -/
def inWindow15 (now : PyDateTime) (s : String) : Bool :=
  match strptime s with
  | some t => decide (toSecs now - 15 * 86400 ≤ toSecs t)
  | none => false

/-- The timestamp parses and falls in the same calendar month and year as
`now`; an unparseable timestamp is never in the month. -/
def inMonth (now : PyDateTime) (s : String) : Bool :=
  match strptime s with
  | some t => t.month == now.month && t.year == now.year
  | none => false

/-- Distinct events among rows crediting `name` whose timestamp parses and
lands in the last-15-days window. -/
def statsL15Spec (ledger : List Row) (name : String) (now : PyDateTime) :
    Finset String :=
  ((ledger.filter fun r =>
      (statsRowOk r && r.member == name) && inWindow15 now r.timestamp).map
    Row.event).toFinset

/-- Distinct events among rows crediting `name` whose timestamp parses and
lands in the current calendar month. -/
def statsMonSpec (ledger : List Row) (name : String) (now : PyDateTime) :
    Finset String :=
  ((ledger.filter fun r =>
      (statsRowOk r && r.member == name) && inMonth now r.timestamp).map
    Row.event).toFinset

/-- Distinct events over rows passing the `leaderboard` row filter (the same
rows as `allEventsSpec`, with the two truthiness tests in the order
`leaderboard` performs them). -/
def lbAllSpec (ledger : List Row) : Finset String :=
  ((ledger.filter lbRowOk).map Row.event).toFinset

/-- Distinct events credited to member `m` by `leaderboard`-well-formed
rows. -/
def lbMemberSpec (ledger : List Row) (m : String) : Finset String :=
  ((ledger.filter (fun r => lbRowOk r && r.member == m)).map Row.event).toFinset

/-- The distinct members appearing in `leaderboard`-well-formed rows. -/
def lbMembersSpec (ledger : List Row) : Finset String :=
  ((ledger.filter lbRowOk).map Row.member).toFinset

/-- Lookup in the association list modelling `member_attendance`. -/
def maLookup (m : String) : List (String × Finset String) → Option (Finset String)
  | [] => none
  | (k, s) :: rest => if k = m then some s else maLookup m rest

/-- Keys of the association list modelling `member_attendance`, in
insertion order. -/
def maKeys (ma : List (String × Finset String)) : List String :=
  ma.map Prod.fst

/-! ## Theorems -/

/-- `Row.get` never yields a value for column `"Name"`: the sheet's header
is `[Timestamp, Recorder, Member, EvidenceRef, Event]`. -/
theorem Row.get_name (r : Row) : r.get "Name" = none := rfl

/-- The `already_recorded` comprehension succeeds only on an empty ledger:
with any row present, evaluating `row["Name"]` raises `KeyError` because the
sheet has no `Name` column. -/
theorem buildAlreadyRecorded_ok (chName : String) (ledger : List Row)
    (ks : List String) (h : buildAlreadyRecorded chName ledger = .ok ks) :
    ledger = [] ∧ ks = [] := by
  cases ledger with
  | nil =>
    refine ⟨rfl, ?_⟩
    simpa [buildAlreadyRecorded] using h.symm
  | cons r rs =>
    rw [buildAlreadyRecorded, dedupElem, Row.get_name] at h
    exact absurd h (by simp)

/-- With an empty duplicate set, every attendee is recorded and one row is
appended per list entry, in order. -/
theorem partyLoop_nil_already (eventName author ts url : String)
    (ms : List String) :
    partyLoop [] eventName author ts url ms
      = (ms.map Outcome.recorded, ms.map fun m => Row.mk ts author m url eventName) := by
  induction ms with
  | nil => rfl
  | cons m ms ih => simp [partyLoop, ih]

/-- Claim C1 (code bug evaluated): with the activated channel `E1`, a first
check-in of Bob on an empty ledger appends one row and reports him recorded;
the second check-in of Bob for the same event does not report `Duplicate` —
it aborts with `KeyError` on column `Name` (the dedup comprehension reads
`row["Name"]`/`row["Party"]`, columns the sheet's
`[Timestamp, Recorder, Member, EvidenceRef, Event]` header does not have),
and in particular appends nothing. -/
theorem checkin_dedup_keyerror_two_calls :
    party [10] 10 "E1" "Dave" "2024-05-01 10:00:00" "url" ["Bob"] []
      = (.ok [.recorded "Bob"], [Row.mk "2024-05-01 10:00:00" "Dave" "Bob" "url" "E1"])
    ∧ party [10] 10 "E1" "Dave" "2024-05-02 11:00:00" "url" ["Bob"]
        [Row.mk "2024-05-01 10:00:00" "Dave" "Bob" "url" "E1"]
      = (.keyError "Name", [Row.mk "2024-05-01 10:00:00" "Dave" "Bob" "url" "E1"])
    ∧ (party [10] 10 "E1" "Dave" "2024-05-02 11:00:00" "url" ["Bob"]
        [Row.mk "2024-05-01 10:00:00" "Dave" "Bob" "url" "E1"]).1
        ≠ .ok [.duplicate "Bob"] := by
  refine ⟨by decide, by decide, by decide⟩

/-- Claim C2 (code bug evaluated): the scenario "check-in for `E1` with
attendees `[Bob, Carol]`, Bob already recorded for `E1`" does not produce
`[Duplicate(Bob), Recorded(Carol)]` with one appended row: the call aborts
with `KeyError` on column `Name` before the per-attendee loop, produces no
outcome list at all and appends nothing. -/
theorem checkin_outcomes_keyerror_on_nonempty_ledger :
    party [7] 7 "E1" "Dave" "2024-05-02 11:00:00" "url" ["Bob", "Carol"]
        [Row.mk "2024-05-01 10:00:00" "Ed" "Bob" "url" "E1"]
      = (.keyError "Name", [Row.mk "2024-05-01 10:00:00" "Ed" "Bob" "url" "E1"])
    ∧ (party [7] 7 "E1" "Dave" "2024-05-02 11:00:00" "url" ["Bob", "Carol"]
        [Row.mk "2024-05-01 10:00:00" "Ed" "Bob" "url" "E1"]).1
        ≠ .ok [.duplicate "Bob", .recorded "Carol"] := by
  refine ⟨by decide, by decide⟩

/-- Claim C9: a `party` call whose channel is not in
`active_attendance_channels` is rejected with the session-not-active message,
and an (active-channel) call whose attendee list is empty is rejected with
the no-attendees message; in both cases the ledger is returned unchanged —
no row is appended. -/
theorem checkin_rejections (active : List ℕ) (chId : ℕ)
    (chName author ts url : String) (attendees : List String)
    (ledger : List Row) :
    (chId ∉ active →
      party active chId chName author ts url attendees ledger
        = (.sessionNotActive, ledger))
    ∧ (chId ∈ active → attendees = [] →
      party active chId chName author ts url attendees ledger
        = (.noAttendees, ledger)) := by
  constructor
  · intro h
    simp [party, h]
  · intro h he
    subst he
    simp [party, h]

/-- Witness for C9: both rejection branches at concrete inputs. -/
theorem checkin_rejections_witness :
    party [] 3 "E1" "Dave" "t" "u" ["Bob"] [] = (.sessionNotActive, [])
    ∧ party [3] 3 "E1" "Dave" "t" "u" [] [] = (.noAttendees, []) :=
  ⟨(checkin_rejections [] 3 "E1" "Dave" "t" "u" ["Bob"] []).1 (by simp),
   (checkin_rejections [3] 3 "E1" "Dave" "t" "u" [] []).2 (by simp) rfl⟩

/-- Claim C10, counterexample: Bob is not recorded for `E1` in a ledger whose
only row credits Alice for `E2`, and the attendee list names Bob twice; the
claim predicts both occurrences reported `Recorded`, but the call aborts with
`KeyError` on column `Name` (raised while scanning the unrelated Alice row)
and reports no outcome. -/
theorem checkin_repeated_attendee_cx :
    party [7] 7 "E1" "Dave" "2024-05-02 11:00:00" "url" ["Bob", "Bob"]
        [Row.mk "2024-05-01 10:00:00" "Ed" "Alice" "url" "E2"]
      = (.keyError "Name", [Row.mk "2024-05-01 10:00:00" "Ed" "Alice" "url" "E2"])
    ∧ (party [7] 7 "E1" "Dave" "2024-05-02 11:00:00" "url" ["Bob", "Bob"]
        [Row.mk "2024-05-01 10:00:00" "Ed" "Alice" "url" "E2"]).1
        ≠ .ok [.recorded "Bob", .recorded "Bob"] := by
  refine ⟨by decide, by decide⟩

/-- Claim C10 as amended: the dedup key set is computed once before the
per-attendee loop and never updated after an append, so on any `party` call
that completes normally (which, given the `Name`/`Party` column mismatch,
forces the ledger read to have returned no rows) the dedup set is empty and
every occurrence of a member in the attendee list — repeated occurrences
included — is reported `Recorded`, with exactly one row appended per
occurrence, in order. -/
theorem checkin_fixed_dedup_on_success (active : List ℕ) (chId : ℕ)
    (chName author ts url : String) (attendees : List String)
    (ledger : List Row) (outs : List Outcome) (L : List Row)
    (h : party active chId chName author ts url attendees ledger = (.ok outs, L)) :
    ledger = [] ∧ outs = attendees.map Outcome.recorded
      ∧ L = attendees.map fun m => Row.mk ts author m url chName := by
  unfold party at h
  by_cases hAct : chId ∉ active
  · simp [hAct] at h
  · rw [if_neg hAct] at h
    by_cases hAtt : attendees = []
    · simp [hAtt] at h
    · rw [if_neg hAtt] at h
      rcases hB : buildAlreadyRecorded chName ledger with c | ks
      · rw [hB] at h
        simp at h
      · rw [hB] at h
        obtain ⟨hL, hks⟩ := buildAlreadyRecorded_ok chName ledger ks hB
        subst hL hks
        simp only [partyLoop_nil_already, List.nil_append, Prod.mk.injEq,
          PartyReply.ok.injEq] at h
        exact ⟨rfl, h.1.symm, h.2.symm⟩

/-- Witness for the amended C10: a completing call with `Bob` listed twice
records him twice and appends two rows for the pair `(E1, Bob)`. -/
theorem checkin_fixed_dedup_on_success_witness :
    ([] : List Row) = []
    ∧ [Outcome.recorded "Bob", Outcome.recorded "Bob"]
        = (["Bob", "Bob"].map Outcome.recorded)
    ∧ [Row.mk "t" "Dave" "Bob" "u" "E1", Row.mk "t" "Dave" "Bob" "u" "E1"]
        = (["Bob", "Bob"].map fun m => Row.mk "t" "Dave" m "u" "E1") :=
  checkin_fixed_dedup_on_success [7] 7 "E1" "Dave" "t" "u" ["Bob", "Bob"] []
    [Outcome.recorded "Bob", Outcome.recorded "Bob"]
    [Row.mk "t" "Dave" "Bob" "u" "E1", Row.mk "t" "Dave" "Bob" "u" "E1"]
    (by decide)

/-- Unfolding of the `attendance_percent` row loop: starting from any pair
of sets, it adds exactly the distinct events of well-formed rows, resp. of
well-formed rows crediting the queried member. -/
theorem percent_foldl (name : String) (l : List Row)
    (st : Finset String × Finset String) :
    l.foldl (percentStep name) st
      = (st.1 ∪ allEventsSpec l, st.2 ∪ memberEventsSpec l name) := by
  induction l generalizing st with
  | nil => simp [allEventsSpec, memberEventsSpec]
  | cons r rs ih =>
    rw [List.foldl_cons, ih]
    by_cases h1 : percentRowOk r
    · by_cases h2 : r.member = name
      · simp [percentStep, allEventsSpec, memberEventsSpec, h1, h2,
          List.filter_cons, Finset.insert_union, Finset.union_insert]
      · simp [percentStep, allEventsSpec, memberEventsSpec, h1, h2,
          List.filter_cons, Finset.insert_union, Finset.union_insert]
    · simp [percentStep, allEventsSpec, memberEventsSpec, h1, List.filter_cons]

/-- `attendance_percent` in closed form. -/
theorem attendance_percent_eq (ledger : List Row) (name : String) :
    attendance_percent ledger name
      = if (allEventsSpec ledger).card = 0 then .noEventsRecorded
        else .stats (memberEventsSpec ledger name).card (allEventsSpec ledger).card
          (((memberEventsSpec ledger name).card : ℚ)
            / ((allEventsSpec ledger).card : ℚ) * 100) := by
  unfold attendance_percent
  rw [percent_foldl]
  simp

/-- Claim C3: `attendance_percent` returns `total` = the number of distinct
events over rows having both `Event` and `Member` cells, `attended` = the
number of distinct events among such rows whose `Member` equals the queried
display name, and rate `attended / total * 100`; when `total = 0` it returns
the no-events message instead of dividing. -/
theorem percentage_characterization (ledger : List Row) (name : String) :
    attendance_percent ledger name
      = if (allEventsSpec ledger).card = 0 then .noEventsRecorded
        else .stats (memberEventsSpec ledger name).card (allEventsSpec ledger).card
          (((memberEventsSpec ledger name).card : ℚ)
            / ((allEventsSpec ledger).card : ℚ) * 100) :=
  attendance_percent_eq ledger name

/-- Every event credited to a member is an event of the ledger. -/
theorem memberEventsSpec_subset (ledger : List Row) (name : String) :
    memberEventsSpec ledger name ⊆ allEventsSpec ledger := by
  intro x hx
  simp only [memberEventsSpec, allEventsSpec, List.mem_toFinset, List.mem_map,
    List.mem_filter, Bool.and_eq_true] at hx ⊢
  obtain ⟨r, ⟨hr, hok, _⟩, hev⟩ := hx
  exact ⟨r, ⟨hr, hok⟩, hev⟩

/-- Claim C7: whenever `attendance_percent` reports a rate, it satisfies
`0 ≤ percent ≤ 100`, and `percent = 100` exactly when the member's
distinct-event count equals the ledger's distinct-event count. -/
theorem percentage_bounds (ledger : List Row) (name : String) (a t : ℕ) (p : ℚ)
    (h : attendance_percent ledger name = .stats a t p) :
    0 ≤ p ∧ p ≤ 100
      ∧ (p = 100 ↔ (memberEventsSpec ledger name).card = (allEventsSpec ledger).card) := by
  rw [attendance_percent_eq] at h
  by_cases h0 : (allEventsSpec ledger).card = 0
  · rw [if_pos h0] at h
    exact absurd h (by simp)
  · rw [if_neg h0] at h
    obtain ⟨ha, ht, hp⟩ := PercentOutput.stats.inj h
    subst hp
    have hle : (memberEventsSpec ledger name).card ≤ (allEventsSpec ledger).card :=
      Finset.card_le_card (memberEventsSpec_subset ledger name)
    have htQ : (0 : ℚ) < ((allEventsSpec ledger).card : ℚ) := by
      exact_mod_cast Nat.pos_of_ne_zero h0
    have hdiv : ((memberEventsSpec ledger name).card : ℚ)
        / ((allEventsSpec ledger).card : ℚ) ≤ 1 := by
      rw [div_le_one htQ]
      exact_mod_cast hle
    refine ⟨?_, ?_, ?_⟩
    · positivity
    · calc ((memberEventsSpec ledger name).card : ℚ)
            / ((allEventsSpec ledger).card : ℚ) * 100
          ≤ 1 * 100 := by
            exact mul_le_mul_of_nonneg_right hdiv (by norm_num)
        _ = 100 := by norm_num
    · constructor
      · intro hp100
        have h1 : ((memberEventsSpec ledger name).card : ℚ)
            / ((allEventsSpec ledger).card : ℚ) = 1 :=
          mul_right_cancel₀ (b := (100 : ℚ)) (by norm_num)
            (by rw [hp100]; norm_num)
        rw [div_eq_one_iff_eq (ne_of_gt htQ)] at h1
        exact_mod_cast h1
      · intro hcard
        rw [hcard, div_self (ne_of_gt htQ)]
        norm_num

/-- Witness for C7 at a two-event ledger where Alice attended one event. -/
theorem percentage_bounds_witness :
    (0 : ℚ) ≤ 50 ∧ (50 : ℚ) ≤ 100
      ∧ ((50 : ℚ) = 100
        ↔ (memberEventsSpec
            [Row.mk "t" "D" "Alice" "u" "E1", Row.mk "t" "D" "Bob" "u" "E2"] "Alice").card
          = (allEventsSpec
            [Row.mk "t" "D" "Alice" "u" "E1", Row.mk "t" "D" "Bob" "u" "E2"]).card) :=
  percentage_bounds [Row.mk "t" "D" "Alice" "u" "E1", Row.mk "t" "D" "Bob" "u" "E2"]
    "Alice" 1 2 50 (by
      rw [attendance_percent_eq]
      have h1 : (allEventsSpec
          [Row.mk "t" "D" "Alice" "u" "E1", Row.mk "t" "D" "Bob" "u" "E2"]).card = 2 := by
        decide
      have h2 : (memberEventsSpec
          [Row.mk "t" "D" "Alice" "u" "E1", Row.mk "t" "D" "Bob" "u" "E2"] "Alice").card
          = 1 := by
        decide
      rw [h1, h2]
      norm_num)

/-- Unfolding of the `attendance_stats` row loop: starting from any state it
adds exactly the distinct events of the corresponding row families.  Note
`total_attended` collects events of all well-formed member rows, parseable
timestamp or not, while the two window sets require a parseable timestamp. -/
theorem stats_foldl (name : String) (now : PyDateTime) (l : List Row)
    (st : StatsState) :
    l.foldl (statsStep name now) st
      = ⟨st.allEvents ∪ statsAllSpec l,
         st.totalAttended ∪ statsAttSpec l name,
         st.last15 ∪ statsL15Spec l name now,
         st.currentMonth ∪ statsMonSpec l name now⟩ := by
  induction l generalizing st with
  | nil => simp [statsAllSpec, statsAttSpec, statsL15Spec, statsMonSpec]
  | cons r rs ih =>
    rw [List.foldl_cons, ih]
    by_cases h1 : statsRowOk r
    · by_cases h2 : r.member = name
      · rcases hst : strptime r.timestamp with _ | t
        · simp [statsStep, statsAllSpec, statsAttSpec, statsL15Spec, statsMonSpec,
            h1, h2, hst, inWindow15, inMonth, List.filter_cons,
            Finset.insert_union, Finset.union_insert]
        · by_cases hw : toSecs now ≤ toSecs t + 1296000
          <;> by_cases hm1 : t.month = now.month
          <;> by_cases hm2 : t.year = now.year
          <;> simp [statsStep, statsAllSpec, statsAttSpec, statsL15Spec, statsMonSpec,
                h1, h2, hst, hw, hm1, hm2, inWindow15, inMonth, List.filter_cons,
                Finset.insert_union, Finset.union_insert]
      · simp [statsStep, statsAllSpec, statsAttSpec, statsL15Spec, statsMonSpec,
          h1, h2, List.filter_cons, Finset.insert_union, Finset.union_insert]
    · simp [statsStep, statsAllSpec, statsAttSpec, statsL15Spec, statsMonSpec, h1,
        List.filter_cons]

/-- `attendance_stats` in closed form: the four reported counts are the
cardinalities of the four declarative event sets. -/
theorem attendance_stats_eq (ledger : List Row) (name : String)
    (now : PyDateTime) :
    attendance_stats ledger name now
      = ⟨(statsAllSpec ledger).card, (statsAttSpec ledger name).card,
         (statsL15Spec ledger name now).card, (statsMonSpec ledger name now).card⟩ := by
  unfold attendance_stats
  rw [stats_foldl]
  simp

/-- Claim C5, counterexample: a single row crediting Alice for `E1` with the
unparseable timestamp `bad` is excluded from `Last 15 Days` and
`This Month`, as the claim says, but it is still counted in `Attended`
(the code adds the event to `total_attended` before entering the `try`), so
`Attended` is `1` where the claim demands the row's exclusion (which would
give `0`). -/
theorem stats_bad_timestamp_still_in_attended_cx :
    attendance_stats [Row.mk "bad" "Dave" "Alice" "url" "E1"] "Alice"
        (PyDateTime.mk 2024 5 1 0 0 0) = StatsResult.mk 1 1 0 0
    ∧ (attendance_stats [Row.mk "bad" "Dave" "Alice" "url" "E1"] "Alice"
        (PyDateTime.mk 2024 5 1 0 0 0)).attended ≠ 0 := by
  refine ⟨by decide, by decide⟩

/-- Claim C5 as amended: a row whose timestamp fails to parse is excluded
from the `last15Days` and `thisMonth` counts for that row only — those count
distinct events of member rows whose timestamp parses into the window —
while `attended` counts distinct events of all well-formed member rows,
parse failures included; the aggregation always completes and returns the
four counts. -/
theorem stats_bad_timestamp_excluded_windows_only (ledger : List Row)
    (name : String) (now : PyDateTime) :
    (attendance_stats ledger name now).attended = (statsAttSpec ledger name).card
    ∧ (attendance_stats ledger name now).last15Days
        = (statsL15Spec ledger name now).card
    ∧ (attendance_stats ledger name now).thisMonth
        = (statsMonSpec ledger name now).card := by
  rw [attendance_stats_eq]
  exact ⟨rfl, rfl, rfl⟩

/-- Claim C6, counterexample: a ledger whose only row has an empty
`Timestamp` cell but a valid event `E9` credited to Alice.
`attendance_percent` counts `E9` (`total = 1`), but `attendance_stats` skips
the row entirely (line 190 requires a truthy timestamp), reporting
`Total Events = 0`, so the two totals differ on the same ledger. -/
theorem stats_total_ne_percent_total_cx :
    (attendance_stats [Row.mk "" "Dave" "Alice" "u" "E9"] "Alice"
        (PyDateTime.mk 2024 5 1 0 0 0)).totalEvents = 0
    ∧ attendance_percent [Row.mk "" "Dave" "Alice" "u" "E9"] "Alice"
        = PercentOutput.stats 1 1 100
    ∧ (attendance_stats [Row.mk "" "Dave" "Alice" "u" "E9"] "Alice"
        (PyDateTime.mk 2024 5 1 0 0 0)).totalEvents ≠ 1 := by
  refine ⟨by decide, ?_, by decide⟩
  rw [attendance_percent_eq]
  have h1 : (allEventsSpec [Row.mk "" "Dave" "Alice" "u" "E9"]).card = 1 := by decide
  have h2 : (memberEventsSpec [Row.mk "" "Dave" "Alice" "u" "E9"] "Alice").card = 1 := by
    decide
  rw [h1, h2]
  norm_num

/-- Claim C6 as amended: `Total Events` of `attendance_stats` is the number
of distinct events over rows carrying `Event`, `Member` and `Timestamp`
cells — independent of the queried member and of `now` — and it agrees with
the `total` of `attendance_percent` exactly on ledgers where every
percent-well-formed row also carries a timestamp. -/
theorem stats_total_events_characterization (ledger : List Row)
    (name name' : String) (now now' : PyDateTime) :
    (attendance_stats ledger name now).totalEvents = (statsAllSpec ledger).card
    ∧ (attendance_stats ledger name now).totalEvents
        = (attendance_stats ledger name' now').totalEvents
    ∧ ((∀ r ∈ ledger, percentRowOk r = true → statsRowOk r = true) →
        (attendance_stats ledger name now).totalEvents = (allEventsSpec ledger).card) := by
  refine ⟨by rw [attendance_stats_eq], by rw [attendance_stats_eq, attendance_stats_eq], ?_⟩
  intro h
  have hfil : ledger.filter statsRowOk = ledger.filter percentRowOk := by
    apply List.filter_congr
    intro r hr
    by_cases he : r.event = ""
    · simp [statsRowOk, percentRowOk, he]
    · by_cases hmem : r.member = ""
      · simp [statsRowOk, percentRowOk, hmem]
      · have hs := h r hr (by simp [percentRowOk, he, hmem])
        simp [hs, percentRowOk, he, hmem]
  rw [attendance_stats_eq]
  simp [statsAllSpec, allEventsSpec, hfil]

/-- Witness for the amended C6 on a one-row ledger whose row carries a
timestamp. -/
theorem stats_total_events_characterization_witness :
    (attendance_stats [Row.mk "t" "D" "Alice" "u" "E1"] "Alice"
        (PyDateTime.mk 2024 5 1 0 0 0)).totalEvents
      = (allEventsSpec [Row.mk "t" "D" "Alice" "u" "E1"]).card :=
  (stats_total_events_characterization [Row.mk "t" "D" "Alice" "u" "E1"]
    "Alice" "Bob" (PyDateTime.mk 2024 5 1 0 0 0) (PyDateTime.mk 2024 6 1 0 0 0)).2.2
    (by decide)

/-- Claim C8: for every ledger, member and `now`, the windowed counts of
`attendance_stats` never exceed the attended count — both window sets only
collect events of rows already collected by `total_attended`. -/
theorem stats_window_monotonicity (ledger : List Row) (name : String)
    (now : PyDateTime) :
    (attendance_stats ledger name now).last15Days
        ≤ (attendance_stats ledger name now).attended
    ∧ (attendance_stats ledger name now).thisMonth
        ≤ (attendance_stats ledger name now).attended := by
  rw [attendance_stats_eq]
  constructor <;> refine Finset.card_le_card ?_ <;> intro x hx <;>
    simp only [statsL15Spec, statsMonSpec, statsAttSpec, List.mem_toFinset,
      List.mem_map, List.mem_filter, Bool.and_eq_true] at hx ⊢ <;>
    obtain ⟨r, ⟨hr, ⟨hok, hmem⟩, _⟩, hev⟩ := hx <;>
    exact ⟨r, ⟨hr, hok, hmem⟩, hev⟩

/-- Looking up the key just updated yields its old set with the event
inserted (a fresh singleton when the key was absent). -/
theorem maLookup_updateMA_self (ma : List (String × Finset String)) (m e : String) :
    maLookup m (updateMA ma m e) = some (insert e ((maLookup m ma).getD ∅)) := by
  induction ma with
  | nil => simp [updateMA, maLookup]
  | cons p rest ih =>
    obtain ⟨k, s⟩ := p
    by_cases h : k = m
    · subst h
      simp [updateMA, maLookup]
    · simp [updateMA, maLookup, h, ih]

/-- `maKeys` on a cons. -/
theorem maKeys_cons (k : String) (s : Finset String)
    (rest : List (String × Finset String)) :
    maKeys ((k, s) :: rest) = k :: maKeys rest := rfl

/-- Updating one key leaves every other key's binding unchanged. -/
theorem maLookup_updateMA_ne (ma : List (String × Finset String))
    (m e m' : String) (h : m' ≠ m) :
    maLookup m' (updateMA ma m e) = maLookup m' ma := by
  have hmm : ¬(m = m') := fun hh => h hh.symm
  induction ma with
  | nil => simp [updateMA, maLookup, hmm]
  | cons p rest ih =>
    obtain ⟨k, s⟩ := p
    by_cases hk : k = m
    · subst hk
      simp [updateMA, maLookup, hmm]
    · simp [updateMA, maLookup, hk, ih]

/-- The keys after an update are the old keys, plus the new one at the end
when it was absent. -/
theorem mem_maKeys_updateMA (ma : List (String × Finset String))
    (m e x : String) :
    x ∈ maKeys (updateMA ma m e) ↔ x ∈ maKeys ma ∨ x = m := by
  induction ma with
  | nil => simp [updateMA, maKeys]
  | cons p rest ih =>
    obtain ⟨k, s⟩ := p
    by_cases hk : k = m
    · subst hk
      simp only [updateMA, eq_self_iff_true, if_true, maKeys_cons, List.mem_cons]
      tauto
    · simp only [updateMA, if_neg hk, maKeys_cons, List.mem_cons, ih]
      tauto

/-- `updateMA` never duplicates a key. -/
theorem maKeys_nodup_updateMA (ma : List (String × Finset String))
    (m e : String) (h : (maKeys ma).Nodup) :
    (maKeys (updateMA ma m e)).Nodup := by
  induction ma with
  | nil => simp [updateMA, maKeys]
  | cons p rest ih =>
    obtain ⟨k, s⟩ := p
    rw [maKeys_cons, List.nodup_cons] at h
    by_cases hk : k = m
    · subst hk
      simp only [updateMA, eq_self_iff_true, if_true, maKeys_cons, List.nodup_cons]
      exact h
    · simp only [updateMA, if_neg hk, maKeys_cons, List.nodup_cons]
      refine ⟨?_, ih h.2⟩
      intro hmem
      rcases (mem_maKeys_updateMA rest m e k).mp hmem with hin | heq
      · exact h.1 hin
      · exact hk heq

/-- A key has a binding exactly when it occurs among the keys. -/
theorem maLookup_isSome_iff (ma : List (String × Finset String)) (m : String) :
    (maLookup m ma).isSome = true ↔ m ∈ maKeys ma := by
  induction ma with
  | nil => simp [maLookup, maKeys]
  | cons p rest ih =>
    obtain ⟨k, s⟩ := p
    by_cases hk : k = m
    · subst hk
      simp [maLookup, maKeys_cons]
    · simp [maLookup, maKeys_cons, hk, Ne.symm hk, ih]

/-- With duplicate-free keys, list membership determines the lookup. -/
theorem maLookup_of_mem_nodup (ma : List (String × Finset String))
    (m : String) (s : Finset String) (hnd : (maKeys ma).Nodup)
    (h : (m, s) ∈ ma) : maLookup m ma = some s := by
  induction ma with
  | nil => simp at h
  | cons p rest ih =>
    obtain ⟨k, t⟩ := p
    rw [maKeys_cons, List.nodup_cons] at hnd
    rcases List.mem_cons.mp h with heq | hmem
    · have h1 : m = k := congrArg Prod.fst heq
      have h2 : s = t := congrArg Prod.snd heq
      subst h1
      subst h2
      simp [maLookup]
    · have hk : k ≠ m := by
        intro hkm
        subst hkm
        exact hnd.1 (List.mem_map_of_mem Prod.fst hmem)
      simp [maLookup, hk, ih hnd.2 hmem]

/-- Inserting into a descending list permutes consing. -/
theorem insertByDesc_perm (x : String × ℚ) (l : List (String × ℚ)) :
    (insertByDesc x l).Perm (x :: l) := by
  induction l with
  | nil => exact List.Perm.refl _
  | cons y ys ih =>
    rw [insertByDesc]
    by_cases h : y.2 ≤ x.2
    · rw [if_pos h]
    · rw [if_neg h]
      exact (ih.cons y).trans (List.Perm.swap x y ys)

/-- The sort is a permutation of its input, so no leaderboard entry is lost
or duplicated by sorting. -/
theorem sortByPercentDesc_perm (l : List (String × ℚ)) :
    (sortByPercentDesc l).Perm l := by
  induction l with
  | nil => simp [sortByPercentDesc]
  | cons x xs ih =>
    rw [sortByPercentDesc]
    exact (insertByDesc_perm x _).trans (ih.cons x)

/-- Members of an insertion are the new element or old members. -/
theorem mem_insertByDesc (x y : String × ℚ) (l : List (String × ℚ))
    (h : y ∈ insertByDesc x l) : y = x ∨ y ∈ l := by
  have := (insertByDesc_perm x l).mem_iff.mp h
  simpa using this

/-- Inserting into a descending list keeps it descending. -/
theorem insertByDesc_pairwise (x : String × ℚ) (l : List (String × ℚ))
    (h : l.Pairwise fun a b => b.2 ≤ a.2) :
    (insertByDesc x l).Pairwise fun a b => b.2 ≤ a.2 := by
  induction l with
  | nil => simp [insertByDesc]
  | cons y ys ih =>
    rw [insertByDesc]
    rcases List.pairwise_cons.mp h with ⟨hy, hys⟩
    by_cases hc : y.2 ≤ x.2
    · rw [if_pos hc]
      refine List.pairwise_cons.mpr ⟨?_, h⟩
      intro z hz
      rcases List.mem_cons.mp hz with rfl | hz'
      · exact hc
      · exact le_trans (hy z hz') hc
    · rw [if_neg hc]
      refine List.pairwise_cons.mpr ⟨?_, ih hys⟩
      intro z hz
      rcases mem_insertByDesc x z ys hz with rfl | hz'
      · exact le_of_not_le hc
      · exact hy z hz'

/-- The sorted board is descending by percent. -/
theorem sortByPercentDesc_pairwise (l : List (String × ℚ)) :
    (sortByPercentDesc l).Pairwise fun a b => b.2 ≤ a.2 := by
  induction l with
  | nil => simp [sortByPercentDesc]
  | cons x xs ih => exact insertByDesc_pairwise x _ ih

/-- Stripping the rank numbers recovers the sorted board. -/
theorem addRanks_map_snd (i : ℕ) (l : List (String × ℚ)) :
    (addRanks i l).map Prod.snd = l := by
  induction l generalizing i with
  | nil => rfl
  | cons x xs ih => simp [addRanks, ih]

/-- Ranks are consecutive starting at the given base. -/
theorem addRanks_get_fst (i : ℕ) (l : List (String × ℚ)) (j : ℕ)
    (h : j < (addRanks i l).length) :
    ((addRanks i l).get ⟨j, h⟩).1 = i + j := by
  induction l generalizing i j with
  | nil => simp [addRanks] at h
  | cons x xs ih =>
    cases j with
    | zero => simp [addRanks]
    | succ j' =>
      have h' : j' < (addRanks (i + 1) xs).length := by
        simpa [addRanks] using h
      have hstep : (addRanks i (x :: xs)).get ⟨j' + 1, h⟩
          = (addRanks (i + 1) xs).get ⟨j', h'⟩ := rfl
      rw [hstep, ih (i + 1) j' h']
      omega

/-- The `event_set` accumulated by the `leaderboard` row loop. -/
theorem lb_foldl_fst (l : List Row)
    (st : Finset String × List (String × Finset String)) :
    (l.foldl lbStep st).1 = st.1 ∪ lbAllSpec l := by
  induction l generalizing st with
  | nil => simp [lbAllSpec]
  | cons r rs ih =>
    rw [List.foldl_cons, ih]
    by_cases h1 : lbRowOk r
    · simp [lbStep, lbAllSpec, h1, List.filter_cons, Finset.insert_union,
        Finset.union_insert]
    · simp [lbStep, lbAllSpec, h1, List.filter_cons]

/-- A member already present in `member_attendance` ends the loop bound to
its old set united with the events the remaining rows credit to it. -/
theorem lb_foldl_lookup_some (l : List Row) (m : String) :
    ∀ (st : Finset String × List (String × Finset String)) (s : Finset String),
      maLookup m st.2 = some s →
      maLookup m (l.foldl lbStep st).2 = some (s ∪ lbMemberSpec l m) := by
  induction l with
  | nil =>
    intro st s h
    simp [lbMemberSpec, h]
  | cons r rs ih =>
    intro st s h
    rw [List.foldl_cons]
    by_cases h1 : lbRowOk r
    · rw [show lbStep st r = (insert r.event st.1, updateMA st.2 r.member r.event) from by
        simp [lbStep, h1]]
      by_cases h2 : r.member = m
      · subst h2
        rw [ih _ (insert r.event s) (by rw [maLookup_updateMA_self, h, Option.getD_some])]
        simp [lbMemberSpec, h1, List.filter_cons, Finset.insert_union, Finset.union_insert]
      · rw [ih _ s (by rw [maLookup_updateMA_ne _ _ _ _ (fun hh => h2 hh.symm)]; exact h)]
        simp [lbMemberSpec, h1, h2, List.filter_cons]
    · rw [show lbStep st r = st from by simp [lbStep, h1]]
      rw [ih _ s h]
      simp [lbMemberSpec, h1, List.filter_cons]

/-- Unfolding `lbMembersSpec` over a cons. -/
theorem lbMembersSpec_cons (r : Row) (rs : List Row) :
    lbMembersSpec (r :: rs)
      = if lbRowOk r then insert r.member (lbMembersSpec rs)
        else lbMembersSpec rs := by
  by_cases h1 : lbRowOk r <;> simp [lbMembersSpec, List.filter_cons, h1]

/-- Unfolding `lbMemberSpec` over a cons. -/
theorem lbMemberSpec_cons (r : Row) (rs : List Row) (m : String) :
    lbMemberSpec (r :: rs) m
      = if lbRowOk r && r.member == m then insert r.event (lbMemberSpec rs m)
        else lbMemberSpec rs m := by
  by_cases h1 : lbRowOk r <;> by_cases h2 : r.member = m <;>
    simp [lbMemberSpec, List.filter_cons, h1, h2]

/-- A member absent from `member_attendance` ends the loop bound exactly to
the events the rows credit to it, and stays absent when no row mentions
it. -/
theorem lb_foldl_lookup_none (l : List Row) (m : String) :
    ∀ (st : Finset String × List (String × Finset String)),
      maLookup m st.2 = none →
      maLookup m (l.foldl lbStep st).2
        = if m ∈ lbMembersSpec l then some (lbMemberSpec l m) else none := by
  induction l with
  | nil =>
    intro st h
    simp [lbMembersSpec, h]
  | cons r rs ih =>
    intro st h
    rw [List.foldl_cons]
    by_cases h1 : lbRowOk r
    · rw [show lbStep st r = (insert r.event st.1, updateMA st.2 r.member r.event) from by
        simp [lbStep, h1]]
      by_cases h2 : r.member = m
      · subst h2
        rw [lb_foldl_lookup_some rs r.member _ (insert r.event ∅) (by
          rw [maLookup_updateMA_self, h]
          simp)]
        have hmem : r.member ∈ lbMembersSpec (r :: rs) := by
          rw [lbMembersSpec_cons, if_pos h1]
          exact Finset.mem_insert_self _ _
        rw [if_pos hmem, lbMemberSpec_cons]
        simp [h1, ← Finset.insert_eq]
      · have h2' : ¬(m = r.member) := fun hh => h2 hh.symm
        rw [ih _ (by rw [maLookup_updateMA_ne st.2 r.member r.event m h2']; exact h)]
        rw [lbMembersSpec_cons, lbMemberSpec_cons]
        simp [h1, h2, h2']
    · rw [show lbStep st r = st from by simp [lbStep, h1]]
      rw [ih _ h, lbMembersSpec_cons, lbMemberSpec_cons]
      simp [h1]

/-- The `member_attendance` dict never holds a key twice. -/
theorem lb_foldl_nodup (l : List Row)
    (st : Finset String × List (String × Finset String))
    (h : (maKeys st.2).Nodup) : (maKeys (l.foldl lbStep st).2).Nodup := by
  induction l generalizing st with
  | nil => exact h
  | cons r rs ih =>
    rw [List.foldl_cons]
    by_cases h1 : lbRowOk r
    · rw [show lbStep st r = (insert r.event st.1, updateMA st.2 r.member r.event) from by
        simp [lbStep, h1]]
      exact ih _ (maKeys_nodup_updateMA _ _ _ h)
    · rw [show lbStep st r = st from by simp [lbStep, h1]]
      exact ih _ h

/-- The member component of each ranked entry is the member component of
the corresponding sorted entry. -/
theorem addRanks_map_member (i : ℕ) (l : List (String × ℚ)) :
    (addRanks i l).map (fun e => e.2.1) = l.map Prod.fst := by
  induction l generalizing i with
  | nil => rfl
  | cons x xs ih => simp [addRanks, ih]

/-- On a ledger with at least one event, `leaderboard` produces the ranked
board built from `member_attendance`. -/
theorem leaderboard_board_eq (ledger : List Row)
    (h0 : (lbAllSpec ledger).card ≠ 0) :
    leaderboard ledger = .board (addRanks 1 (sortByPercentDesc
      ((ledger.foldl lbStep (∅, [])).2.map
        fun p => (p.1, (p.2.card : ℚ) / ((lbAllSpec ledger).card : ℚ) * 100)))) := by
  simp only [leaderboard]
  rw [lb_foldl_fst]
  simp only [Finset.empty_union]
  rw [if_neg h0]

/-- Claim C4: on any ledger with a well-formed row, `leaderboard` reports a
board holding exactly one entry per distinct member of the well-formed rows,
each entry carrying `percent` = (distinct events credited to the member) /
(distinct events ledger-wide) × 100, ordered descending by percent and
numbered with 1-based ranks; on a ledger with zero distinct events it
reports the no-events message instead. -/
theorem leaderboard_complete_sorted_ranked (ledger : List Row) :
    ((∀ r ∈ ledger, lbRowOk r = false) → leaderboard ledger = .noEventsRecorded)
    ∧ ((∃ r ∈ ledger, lbRowOk r = true) →
        ∃ entries, leaderboard ledger = .board entries)
    ∧ ∀ entries, leaderboard ledger = .board entries →
        (entries.map fun e => e.2.1).Nodup
        ∧ (∀ m, m ∈ entries.map (fun e => e.2.1) ↔ m ∈ lbMembersSpec ledger)
        ∧ (∀ e ∈ entries,
            e.2.2 = ((lbMemberSpec ledger e.2.1).card : ℚ)
              / ((lbAllSpec ledger).card : ℚ) * 100)
        ∧ entries.Pairwise (fun a b => b.2.2 ≤ a.2.2)
        ∧ ∀ j (hj : j < entries.length), (entries.get ⟨j, hj⟩).1 = j + 1 := by
  have hnd : (maKeys (ledger.foldl lbStep (∅, [])).2).Nodup :=
    lb_foldl_nodup ledger (∅, []) (by simp [maKeys])
  have hlook : ∀ m, maLookup m (ledger.foldl lbStep (∅, [])).2
      = if m ∈ lbMembersSpec ledger then some (lbMemberSpec ledger m) else none :=
    fun m => lb_foldl_lookup_none ledger m (∅, []) rfl
  have hkeys : ∀ m, m ∈ maKeys (ledger.foldl lbStep (∅, [])).2
      ↔ m ∈ lbMembersSpec ledger := by
    intro m
    rw [← maLookup_isSome_iff, hlook m]
    by_cases hm : m ∈ lbMembersSpec ledger <;> simp [hm]
  have hval : ∀ p ∈ (ledger.foldl lbStep (∅, [])).2,
      p.2 = lbMemberSpec ledger p.1 := by
    intro p hp
    have hmem := maLookup_of_mem_nodup _ p.1 p.2 hnd (by simpa using hp)
    rw [hlook p.1] at hmem
    by_cases hm : p.1 ∈ lbMembersSpec ledger
    · rw [if_pos hm] at hmem
      exact (Option.some.inj hmem).symm
    · rw [if_neg hm] at hmem
      exact absurd hmem (by simp)
  refine ⟨?_, ?_, ?_⟩
  · intro hall
    have hnil : ledger.filter lbRowOk = [] := by
      rw [List.filter_eq_nil_iff]
      intro a ha
      simp [hall a ha]
    have hempty : (lbAllSpec ledger).card = 0 := by
      simp [lbAllSpec, hnil]
    simp only [leaderboard]
    rw [lb_foldl_fst]
    simp only [Finset.empty_union]
    rw [if_pos hempty]
  · rintro ⟨r, hr, hok⟩
    have hne : (lbAllSpec ledger).card ≠ 0 := by
      refine Finset.card_ne_zero_of_mem (a := r.event) ?_
      simp only [lbAllSpec, List.mem_toFinset, List.mem_map, List.mem_filter]
      exact ⟨r, ⟨hr, hok⟩, rfl⟩
    exact ⟨_, leaderboard_board_eq ledger hne⟩
  · intro entries hE
    by_cases h0 : (lbAllSpec ledger).card = 0
    · rw [show leaderboard ledger = .noEventsRecorded from by
        simp only [leaderboard]
        rw [lb_foldl_fst]
        simp only [Finset.empty_union]
        rw [if_pos h0]] at hE
      exact absurd hE (by simp)
    · rw [leaderboard_board_eq ledger h0] at hE
      have hEq := (LeaderboardOutput.board.inj hE).symm
      subst hEq
      have hsnd : (addRanks 1 (sortByPercentDesc
          ((ledger.foldl lbStep (∅, [])).2.map
            fun p => (p.1, (p.2.card : ℚ) / ((lbAllSpec ledger).card : ℚ) * 100)))).map
            Prod.snd
          = sortByPercentDesc ((ledger.foldl lbStep (∅, [])).2.map
            fun p => (p.1, (p.2.card : ℚ) / ((lbAllSpec ledger).card : ℚ) * 100)) :=
        addRanks_map_snd _ _
      have hperm := sortByPercentDesc_perm
        ((ledger.foldl lbStep (∅, [])).2.map
          fun p => (p.1, (p.2.card : ℚ) / ((lbAllSpec ledger).card : ℚ) * 100))
      have hm1 : (addRanks 1 (sortByPercentDesc
          ((ledger.foldl lbStep (∅, [])).2.map
            fun p => (p.1, (p.2.card : ℚ) / ((lbAllSpec ledger).card : ℚ) * 100)))).map
            (fun e => e.2.1)
          = (sortByPercentDesc ((ledger.foldl lbStep (∅, [])).2.map
            fun p => (p.1, (p.2.card : ℚ) / ((lbAllSpec ledger).card : ℚ) * 100))).map
            Prod.fst := addRanks_map_member 1 _
      have hdfst : (((ledger.foldl lbStep (∅, [])).2.map
            fun p => (p.1, (p.2.card : ℚ) / ((lbAllSpec ledger).card : ℚ) * 100)).map
            Prod.fst)
          = maKeys (ledger.foldl lbStep (∅, [])).2 := by
        rw [List.map_map]
        rfl
      refine ⟨?_, ?_, ?_, ?_, ?_⟩
      · rw [hm1]
        refine ((hperm.map Prod.fst).nodup_iff).mpr ?_
        rw [hdfst]
        exact hnd
      · intro m
        rw [hm1, (hperm.map Prod.fst).mem_iff, hdfst]
        exact hkeys m
      · intro e he
        have he2 : e.2 ∈ sortByPercentDesc ((ledger.foldl lbStep (∅, [])).2.map
            fun p => (p.1, (p.2.card : ℚ) / ((lbAllSpec ledger).card : ℚ) * 100)) := by
          rw [← hsnd]
          exact List.mem_map_of_mem Prod.snd he
        rw [hperm.mem_iff] at he2
        obtain ⟨p, hp, hfp⟩ := List.mem_map.mp he2
        have h21 : e.2.1 = p.1 := by rw [← hfp]
        have h22 : e.2.2 = (p.2.card : ℚ) / ((lbAllSpec ledger).card : ℚ) * 100 := by
          rw [← hfp]
        rw [h22, h21, hval p hp]
      · have hp := sortByPercentDesc_pairwise
          ((ledger.foldl lbStep (∅, [])).2.map
            fun p => (p.1, (p.2.card : ℚ) / ((lbAllSpec ledger).card : ℚ) * 100))
        rw [← hsnd] at hp
        exact List.pairwise_map.mp hp
      · intro j hj
        rw [addRanks_get_fst 1 _ j hj]
        omega

/-- Concrete run: three rows (Alice at `E1` and `E2`, Bob at `E1`) produce
the ranked board Alice 100 percent, Bob 50 percent. -/
theorem leaderboard_eval_example :
    leaderboard [Row.mk "t" "D" "Alice" "u" "E1", Row.mk "t" "D" "Bob" "u" "E1",
        Row.mk "t" "D" "Alice" "u" "E2"]
      = .board [(1, "Alice", (100 : ℚ)), (2, "Bob", (50 : ℚ))] := by
  have h1 : ((([Row.mk "t" "D" "Alice" "u" "E1", Row.mk "t" "D" "Bob" "u" "E1",
      Row.mk "t" "D" "Alice" "u" "E2"] : List Row).foldl lbStep (∅, [])).1).card = 2 := by
    decide
  have h2 : (([Row.mk "t" "D" "Alice" "u" "E1", Row.mk "t" "D" "Bob" "u" "E1",
      Row.mk "t" "D" "Alice" "u" "E2"] : List Row).foldl lbStep (∅, [])).2
      = [("Alice", ({"E1", "E2"} : Finset String)), ("Bob", {"E1"})] := by
    decide
  have hA : ({"E1", "E2"} : Finset String).card = 2 := by decide
  have hB : ({"E1"} : Finset String).card = 1 := by decide
  simp only [leaderboard]
  rw [h1, h2]
  norm_num [sortByPercentDesc, insertByDesc, addRanks, hA, hB]

/-- Witness for C4: applying the theorem to the three-row ledger, the
board's first entry carries Alice's percent, computed from the declarative
distinct-event counts. -/
theorem leaderboard_complete_sorted_ranked_witness :
    (100 : ℚ) = ((lbMemberSpec
        [Row.mk "t" "D" "Alice" "u" "E1", Row.mk "t" "D" "Bob" "u" "E1",
         Row.mk "t" "D" "Alice" "u" "E2"] "Alice").card : ℚ)
      / ((lbAllSpec
        [Row.mk "t" "D" "Alice" "u" "E1", Row.mk "t" "D" "Bob" "u" "E1",
         Row.mk "t" "D" "Alice" "u" "E2"]).card : ℚ) * 100 :=
  ((leaderboard_complete_sorted_ranked
      [Row.mk "t" "D" "Alice" "u" "E1", Row.mk "t" "D" "Bob" "u" "E1",
       Row.mk "t" "D" "Alice" "u" "E2"]).2.2
    [(1, "Alice", 100), (2, "Bob", 50)] leaderboard_eval_example).2.2.1
    (1, "Alice", 100) (by simp)

end AttendanceBot
